import Mathlib

/-!
Verification of the mkpl playlist builder (src/mkpl.py) against its
natural-language specification.

The Python source is shallowly embedded below.  Pure string manipulation
(separator substitution, newline escaping, rstrip, startswith, capwords,
readlines-style line splitting) is implemented directly on `String` /
`List Char`, mirroring the Python semantics.  External collaborators that
the spec places out of scope (the mutagen tag reader, regular-expression
search, URL percent-encoding, the filesystem and the interactive prompt)
are supplied through an explicit environment record `Env`, exactly at the
call boundaries where the source invokes them.  Machine files are modelled
by their byte content (`List Nat`), durations by rationals.
-/

namespace Mkpl

/-- Python whitespace set used by `str.rstrip()` / `str.split()`:
space, tab, newline, carriage return, vertical tab, form feed. -/
def pyIsSpace (c : Char) : Bool :=
  c = ' ' || c = '\t' || c = '\n' || c = '\r' || c = '\x0b' || c = '\x0c'

/-- Python `s.startswith(p)`. -/
def pyStartsWith (s p : String) : Bool :=
  decide (p.data <+: s.data)

/-- Python `p in s` substring containment test. -/
def strContains (s p : String) : Bool :=
  decide (p.data <:+: s.data)

/-- Python `s.endswith(p)`. -/
def strEndsWith (s p : String) : Bool :=
  decide (p.data <:+ s.data)

/-- Python `s.rstrip()`: drop trailing whitespace characters. -/
def pyRstrip (s : String) : String :=
  String.mk ((s.data.reverse.dropWhile pyIsSpace).reverse)

/-- Python truthiness of an optional string field of a namedtuple:
`None`/`False` and the empty string are falsy. -/
def pyTruthy : Option String → Bool
  | none => false
  | some s => s ≠ ""

/-- Concatenation of a list of strings, modelling the sequence of
`pl.write(...)` calls producing the file content. -/
def strJoin : List String → String
  | [] => ""
  | s :: rest => s ++ strJoin rest

/-- `escape_newlines` (mkpl.py line 680): replace each newline character
with the two characters backslash-n. -/
def escape_newlines (s : String) : String :=
  String.mk (s.data.flatMap (fun c => if c = '\n' then ['\\', 'n'] else [c]))

/-- `unix_to_dos` (mkpl.py line 665): substitute every folder separator;
forward direction replaces each `/` by a backslash, `viceversa` replaces
each backslash by `/` (the Python `re.sub` patterns match one character). -/
def unix_to_dos (path : String) (viceversa : Bool) : String :=
  if viceversa then String.mk (path.data.map (fun c => if c = '\\' then '/' else c))
  else String.mk (path.data.map (fun c => if c = '/' then '\\' else c))

/-- POSIX `os.path.join(root, f)` as used by `file_in_playlist`:
an absolute second component wins, otherwise the components are glued
with a single separator. -/
def path_join (root f : String) : String :=
  if pyStartsWith f "/" then f
  else if root = "" then f
  else if strEndsWith root "/" then root ++ f
  else root ++ "/" ++ f

/-- Python `s.split()` on a character list: split on whitespace runs,
discarding empty pieces. -/
def pyWordsAux : List Char → List Char → List (List Char)
  | [], [] => []
  | [], acc => [acc.reverse]
  | c :: rest, acc =>
    if pyIsSpace c then
      if acc = [] then pyWordsAux rest []
      else acc.reverse :: pyWordsAux rest []
    else pyWordsAux rest (c :: acc)

/-- Python `str.capitalize()`: first character upper-cased, the rest
lower-cased. -/
def pyCapitalize : List Char → List Char
  | [] => []
  | c :: cs => c.toUpper :: cs.map Char.toLower

/-- `string.capwords` as used on the playlist title (mkpl.py line 817):
split on whitespace, capitalize each word, join with single spaces. -/
def capwords (s : String) : String :=
  String.mk (List.intercalate [' '] ((pyWordsAux s.data []).map pyCapitalize))

/-- Python `file.readlines()` helper: accumulate one line (in reverse)
until a newline character, keeping the newline on the produced line. -/
def readlinesAux : List Char → List Char → List String
  | [], [] => []
  | [], acc => [String.mk acc.reverse]
  | c :: rest, acc =>
    if c = '\n' then String.mk (('\n' :: acc).reverse) :: readlinesAux rest []
    else readlinesAux rest (c :: acc)

/-- Python `file.readlines()` on the content of a text file: the list of
lines, each keeping its terminating newline (the final line may lack one). -/
def readlines (s : String) : List String :=
  readlinesAux s.data []

/-- `PlaylistEntry` namedtuple (mkpl.py line 123): location plus optional
cover image and optional EXTINF descriptor (`False` modelled as `none`). -/
structure PlaylistEntry where
  file : String
  image : Option String := none
  extinf : Option String := none
deriving DecidableEq, Repr

/-- `Playlist` namedtuple (mkpl.py line 119). -/
structure Playlist where
  files : List PlaylistEntry
  ext : Bool := false
  name : Option String := none
  encoding : Option String := none
deriving DecidableEq, Repr

/-- `PlaylistFilter` namedtuple (mkpl.py line 127). -/
structure PlaylistFilter where
  key : String
  value : String
deriving DecidableEq, Repr

/-- `files[:max_tracks]` slicing with `None` meaning the whole list. -/
def listTake {α : Type} : Option Nat → List α → List α
  | none, l => l
  | some n, l => l.take n

/-- The header lines of `write_playlist` (mkpl.py lines 813 to 819):
emitted only when the extension flag is set; the title (each word
capitalized) and the encoding line are guarded by Python truthiness of
the corresponding field. -/
def header_lines (playlist : Playlist) : List String :=
  if playlist.ext then
    ["#EXTM3U\n"] ++
    (match playlist.name with
      | some n => if n = "" then [] else ["#PLAYLIST:" ++ capwords n ++ "\n"]
      | none => []) ++
    (match playlist.encoding with
      | some e => if e = "" then [] else ["#EXTENC:" ++ e ++ "\n"]
      | none => [])
  else []

/-- The lines written for one entry (mkpl.py lines 820 to 825): an image
marker and an info marker when the entry carries truthy ones, then the
location line. -/
def entry_lines (f : PlaylistEntry) : List String :=
  (match f.image with
    | some i => if i = "" then [] else ["#EXTIMG:" ++ i ++ "\n"]
    | none => []) ++
  (match f.extinf with
    | some x => if x = "" then [] else ["#EXTINF:" ++ x ++ "\n"]
    | none => []) ++
  [f.file ++ "\n"]

/-- The lines written by `write_playlist` (mkpl.py lines 793 to 825), one
element per `pl.write(...)` call, in order.  Note in the source the
per-entry loop sits outside the `if playlist.ext` block, so entry marker
lines are written regardless of the extension flag. -/
def write_playlist_lines (playlist : Playlist) (max_tracks : Option Nat) : List String :=
  header_lines playlist ++ (listTake max_tracks playlist.files).flatMap entry_lines

/-- The text `write_playlist` adds to the destination file: the
concatenation of all written chunks. -/
def write_playlist_text (playlist : Playlist) (max_tracks : Option Nat) : String :=
  strJoin (write_playlist_lines playlist max_tracks)

/-- The entries `join_playlist` (mkpl.py line 526) parses out of one
joined playlist file: every line not starting with the comment marker,
right-stripped, as a bare entry.  A missing or unreadable file (`none`)
contributes nothing (warn and continue in the source). -/
def join_parse (content : Option String) : List PlaylistEntry :=
  match content with
  | some text =>
      ((readlines text).filter (fun line => !(pyStartsWith line "#"))).map
        (fun line => { file := pyRstrip line })
  | none => []

/-- `join_playlist` (mkpl.py line 526): extend the current playlist with
the entries parsed from each other playlist file in order.  `fs` models
`open(file).readlines()`, returning `none` on a missing or unreadable
file. -/
def join_playlist (fs : String → Option String) (playlist : Playlist)
    (others : List String) : Playlist :=
  { playlist with
    files := others.foldl (fun acc file => acc ++ join_parse (fs file)) playlist.files }

/-- All entries contributed by a sequence of joined playlist files. -/
def joinEntries (fs : String → Option String) (others : List String) : List PlaylistEntry :=
  others.foldl (fun acc file => acc ++ join_parse (fs file)) []

/-- External collaborators of `make_playlist`, supplied at the exact call
boundaries used by the source: `find_pattern` (regular-expression plus
title-tag search), `check_filter` (tag filters), the mutagen duration
(`none` when the file cannot be opened or carries no length), file byte
content (modelling `filecmp.cmp` as content comparison), `make_extinf`
(tag-based EXTINF composition), `Path.resolve`, the interactive prompt,
`urllib.parse.quote`, the `os.stat` sort keys, the tag-based sort keys of
`get_track` / `get_year`, `open(...).readlines()` and `random.shuffle`
(which always produces a permutation of its input). -/
structure Env where
  findPattern : String → String → Bool
  checkFilter : String → PlaylistFilter → Bool
  mediaLength : String → Option ℚ
  fileBytes : String → List Nat
  extinfOf : String → String
  resolve : String → String
  confirm : String → Bool
  urlQuote : String → String
  statCtime : String → Option ℚ
  statSize : String → Option Nat
  trackOf : String → Int
  yearOf : String → String
  readFile : String → Option String
  shuffleFn : List PlaylistEntry → List PlaylistEntry
  shuffle_perm : ∀ l, List.Perm (shuffleFn l) l

/-- `get_length` (mkpl.py line 608): the mutagen duration when the opened
file exposes one, and the `0.1` default otherwise. -/
def get_length (env : Env) (file : String) : ℚ :=
  match env.mediaLength file with
  | some l => l
  | none => 1 / 10

/-- `get_ctime` (mkpl.py line 619): the creation time when the file still
exists, `0` otherwise. -/
def get_ctime (env : Env) (e : PlaylistEntry) : ℚ :=
  (env.statCtime e.file).getD 0

/-- `get_size` (mkpl.py line 626): the file size when the file still
exists, `0` otherwise. -/
def get_size (env : Env) (e : PlaylistEntry) : Nat :=
  (env.statSize e.file).getD 0

/-- `filecmp.cmp` of two paths, modelled as byte-content equality. -/
def cmp_files (env : Env) (f1 f2 : String) : Bool :=
  env.fileBytes f1 == env.fileBytes f2

/-- `file_in_playlist` (mkpl.py line 507): some already collected entry,
skipping comment entries, once re-rooted (when a root is given) and with
DOS separators substituted back to Unix ones, compares equal to the
candidate under `filecmp.cmp`. -/
def file_in_playlist (env : Env) (playlist : Playlist) (file : String)
    (root : Option String) : Bool :=
  playlist.files.any fun e =>
    if pyStartsWith e.file "#" then false
    else
      let f := match root with | some r => path_join r e.file | none => e.file
      let f := unix_to_dos f true
      cmp_files env f file

/-- The configuration surface of `make_playlist` (mkpl.py line 828),
with sizes already converted to bytes and lengths to rationals.
Optional strings model Python `None`/`False` defaults. -/
structure Config where
  extension : Bool := false
  title : Option String := none
  encoding : Option String := none
  pattern : Option String := none
  image : Option String := none
  infos : Bool := false
  exclude_pattern : Option String := none
  sortby_name : Bool := false
  sortby_date : Bool := false
  sortby_track : Bool := false
  sortby_year : Bool := false
  sortby_size : Bool := false
  sortby_length : Bool := false
  sortby_shuffle : Bool := false
  exclude_dirs : List String := []
  unique : Bool := false
  absolute : Bool := false
  min_size : Nat := 0
  max_size : Nat := 0
  min_length : ℚ := 0
  max_length : ℚ := 0
  url_char : Bool := false
  windows : Bool := false
  unix : Bool := false
  interactive : Bool := false
  links : List String := []
  other_files : List String := []
  filters : List PlaylistFilter := []
  descending : Bool := false

/-- One file yielded by the glob loop: its path as first bound (before
absolute resolution) together with `file.stat().st_size`. -/
structure Candidate where
  path : String
  size : Nat
deriving DecidableEq, Repr

/-- One root directory handed to `make_playlist`: its path, its
`Path(directory).parent`, the two filesystem checks, and the candidate
files produced by the per-format glob loop in iteration order. -/
structure Dir where
  path : String
  root : String
  dirExists : Bool := true
  isDirectory : Bool := true
  candidates : List Candidate := []

/-- The per-candidate body of the collection loop (mkpl.py lines 924 to
991): the filter chain in source order (inclusion pattern, exclusion
pattern, excluded directories, tag filters, uniqueness, size bounds,
length bounds, interactive confirmation), then the path transformations
(separator substitution, percent-encoding, newline escaping) and the
entry construction.  An empty pattern string is falsy in Python and
disables the corresponding check. -/
def candidateStep (env : Env) (cfg : Config) (root : String)
    (acc : List PlaylistEntry) (c : Candidate) : List PlaylistEntry :=
  let size := c.size
  let file := if cfg.absolute then env.resolve c.path else c.path
  if (cfg.pattern.any fun p => decide (p ≠ "") && !(env.findPattern p file)) then acc
  else if (cfg.exclude_pattern.any fun p => decide (p ≠ "") && env.findPattern p file) then acc
  else if (∃ e ∈ cfg.exclude_dirs, strContains file e = true) then acc
  else if (cfg.filters ≠ [] ∧ ∀ fl ∈ cfg.filters, env.checkFilter file fl = false) then acc
  else if (cfg.unique = true ∧
      file_in_playlist env ⟨acc, cfg.extension, cfg.title, cfg.encoding⟩ file
        (if cfg.absolute then none else some root) = true) then acc
  else if (cfg.min_size ≠ 0 ∧ size ≤ cfg.min_size) then acc
  else if (cfg.max_size ≠ 0 ∧ cfg.max_size ≤ size) then acc
  else if (cfg.min_length ≠ 0 ∧ get_length env file ≤ cfg.min_length) then acc
  else if (cfg.max_length ≠ 0 ∧ cfg.max_length ≤ get_length env file) then acc
  else if (cfg.interactive = true ∧ env.confirm file = false) then acc
  else
    let file := if cfg.windows then unix_to_dos file false
                else if cfg.unix then unix_to_dos file true
                else file
    let file := if cfg.url_char then env.urlQuote file else file
    let file := escape_newlines file
    acc ++ [{ file := file, image := cfg.image,
              extinf := if cfg.infos then some (env.extinfOf file) else none }]

/-- One root directory of the collection loop (mkpl.py lines 903 to 991):
a missing path or a non-directory is skipped with a warning, otherwise
every glob candidate runs through `candidateStep`. -/
def processDir (env : Env) (cfg : Config) (acc : List PlaylistEntry)
    (d : Dir) : List PlaylistEntry :=
  if !d.dirExists then acc
  else if !d.isDirectory then acc
  else d.candidates.foldl (candidateStep env cfg d.root) acc

/-- The collected entries over all requested directories. -/
def collect_dirs (env : Env) (cfg : Config) (dirs : List Dir) : List PlaylistEntry :=
  dirs.foldl (processDir env cfg) []

/-- The entry built for one remote link (mkpl.py line 996): the global
image, never an EXTINF descriptor. -/
def link_entry (cfg : Config) (link : String) : PlaylistEntry :=
  { file := link, image := cfg.image, extinf := none }

/-- The entry built for one explicit extra file (mkpl.py line 1008): the
global image, and an EXTINF descriptor exactly when infos is set. -/
def extra_entry (env : Env) (cfg : Config) (f : String) : PlaylistEntry :=
  { file := f, image := cfg.image,
    extinf := if cfg.infos then some (env.extinfOf f) else none }

/-- Python string comparison (code-point lexicographic) as a boolean
less-or-equal, used by the sort relations. -/
def charsLe : List Char → List Char → Bool
  | [], _ => true
  | _ :: _, [] => false
  | a :: as, b :: bs =>
    if a.val < b.val then true
    else if b.val < a.val then false
    else charsLe as bs

/-- Python `str` less-or-equal on strings. -/
def pyStrLe (a b : String) : Bool :=
  charsLe a.data b.data

/-- Stable insertion of one element: it is placed before the first
element it compares less-or-equal to, so elements comparing equal keep
their original relative order. -/
def pyInsert {α : Type} (le : α → α → Bool) (x : α) : List α → List α
  | [] => [x]
  | y :: ys => if le x y then x :: y :: ys else y :: pyInsert le x ys

/-- Python `list.sort` modelled as a stable insertion sort: the output of
any stable sort under a total preorder is unique, so this coincides with
the stable sort performed by the source. -/
def pySort {α : Type} (le : α → α → Bool) : List α → List α
  | [] => []
  | x :: xs => pyInsert le x (pySort le xs)

/-- The comparison handed to `list.sort(key=..., reverse=...)`: with
`reverse` the comparison is flipped while ties keep insertion order. -/
def sortRel (descending : Bool) (le : PlaylistEntry → PlaylistEntry → Bool)
    (a b : PlaylistEntry) : Bool :=
  if descending then le b a else le a b

/-- The sort dispatch of `make_playlist` (mkpl.py lines 1016 to 1032).
Note the source calls `filelist.files.sort()` for the name ordering
without passing `reverse=descending`, so the descending flag has no
effect there; all other orderings pass it.  `sort()` compares the entry
namedtuples, whose first component is the location string (entries never
share a location with differing remaining fields in a single run). -/
def applySort (env : Env) (cfg : Config) (files : List PlaylistEntry) : List PlaylistEntry :=
  if cfg.sortby_name then
    pySort (fun a b => pyStrLe a.file b.file) files
  else if cfg.sortby_date then
    pySort (sortRel cfg.descending (fun a b => decide (get_ctime env a ≤ get_ctime env b))) files
  else if cfg.sortby_track then
    pySort (sortRel cfg.descending (fun a b => decide (env.trackOf a.file ≤ env.trackOf b.file))) files
  else if cfg.sortby_year then
    pySort (sortRel cfg.descending (fun a b => pyStrLe (env.yearOf a.file) (env.yearOf b.file))) files
  else if cfg.sortby_size then
    pySort (sortRel cfg.descending (fun a b => decide (get_size env a ≤ get_size env b))) files
  else if cfg.sortby_length then
    pySort (sortRel cfg.descending (fun a b => decide (get_length env a.file ≤ get_length env b.file))) files
  else if cfg.sortby_shuffle then
    env.shuffleFn files
  else files

/-- `make_playlist` (mkpl.py line 828): collect over the directories,
append the link entries, append the extra-file entries, then apply the
selected ordering, and package the result with the header fields. -/
def make_playlist (env : Env) (cfg : Config) (dirs : List Dir) : Playlist :=
  { files := applySort env cfg
      (collect_dirs env cfg dirs
        ++ cfg.links.map (link_entry cfg)
        ++ cfg.other_files.map (extra_entry env cfg)),
    ext := cfg.extension, name := cfg.title, encoding := cfg.encoding }

/-- The assembly sequence of `main_cli` (mkpl.py lines 1099 to 1137):
build the playlist, then, when join files were supplied, extend it with
the joined entries. -/
def assemble (env : Env) (cfg : Config) (dirs : List Dir)
    (joins : List String) : Playlist :=
  let pl := make_playlist env cfg dirs
  if joins.isEmpty then pl else join_playlist env.readFile pl joins

/-- The playlist filename fixing of `get_args` (mkpl.py lines 373 to 379):
when the name does not already end in `.m3u`, append `.m3u8` under
UNICODE encoding (unless already present) and `.m3u` otherwise. -/
def fix_playlist_name (playlist : String) (encoding : Option String) : String :=
  if strEndsWith playlist ".m3u" then playlist
  else if encoding = some "UNICODE" then
    (if strEndsWith playlist ".m3u8" then playlist else playlist ++ ".m3u8")
  else playlist ++ ".m3u"

/-- Filesystem facts consumed by the `get_args` validation: `isdir`,
`os.path.exists`, and the pre-existing content of a file (`none` when the
file does not exist yet). -/
structure CliEnv where
  isdir : String → Bool
  fsExists : String → Bool
  readFile : String → Option String

/-- The command-line inputs reaching the validation part of `get_args`,
with sizes already run through the out-of-scope `human_size_to_byte`. -/
structure ArgsIn where
  playlist : String
  append : Bool := false
  title : Option String := none
  encoding : Option String := none
  image : Option String := none
  add_info : Bool := false
  link : List String := []
  file : List String := []
  length : Int := 0
  max_length : Int := 0
  min_size : Nat := 0
  max_size : Nat := 0

/-- The validated outputs of `get_args` used downstream. -/
structure ArgsOut where
  playlist : String
  enabled_extensions : Bool
  enabled_title : Bool
  enabled_encoding : Bool
  image : Option String
  link : List String
  file : List String
deriving Repr

/-- The validation sequence of `get_args` (mkpl.py lines 373 to 451), in
source order: fix the playlist extension; abort when the destination is a
directory; compute the enabled-extension flags; in append mode scan the
first three lines of the pre-existing file for `#EXTM3U` / `#PLAYLIST` /
`#EXTENC` markers (each found marker turns the corresponding flag on) and
drop a requested image with a warning when the non-empty file carries no
extension marker; abort when a requested image does not exist; keep only
links with an http(s) prefix and extra files that exist; abort on
minimum/maximum length conflicts.  `parser.error` aborts are modelled as
`Except.error`.  Note the source performs no comparison between the
minimum and maximum size bounds.  This definition is the append-mode
marker scan (mkpl.py lines 387 to 416): the returned quadruple holds the
extension, title and encoding flags plus the possibly dropped image. -/
def reconcile_append (env : CliEnv) (a : ArgsIn) (name : String) :
    Bool × Bool × Bool × Option String :=
  let ee0 := pyTruthy a.title || pyTruthy a.encoding || pyTruthy a.image || a.add_info
  if a.append then
    let existing := (env.readFile name).getD ""
    let first3 := (readlines existing).take 3
    let ee := ee0 || first3.any (fun line => strContains line "#EXTM3U")
    let et := pyTruthy a.title || first3.any (fun line => strContains line "#PLAYLIST")
    let ec := pyTruthy a.encoding || first3.any (fun line => strContains line "#EXTENC")
    let img := if existing ≠ "" ∧ ee = false ∧ pyTruthy a.image then none else a.image
    (ee, et, ec, img)
  else (ee0, pyTruthy a.title, pyTruthy a.encoding, a.image)

/-- The rest of the `get_args` validation sequence, in source order,
around `reconcile_append`.  The image-exists abort is guarded by Python
truthiness of the image (`if arguments.image:` at mkpl.py line 419), so
an absent or empty-string image is never checked. -/
def get_args_model (env : CliEnv) (a : ArgsIn) : Except String ArgsOut :=
  let name := fix_playlist_name a.playlist a.encoding
  if env.isdir name then .error (name ++ " is a directory")
  else
    let reconciled := reconcile_append env a name
    if (reconciled.2.2.2.any fun i => decide (i ≠ "") && !(env.fsExists i)) then
      .error "image file does not exist"
    else
      let links := a.link.filter (fun l => pyStartsWith l "http://" || pyStartsWith l "https://")
      let files := a.file.filter env.fsExists
      if a.length ≠ 0 ∧ a.length = a.max_length then
        .error "minimum and maximum length must not has the same values"
      else if a.max_length ≠ 0 ∧ a.max_length ≤ a.length then
        .error "minimum length is upper of maximum length"
      else .ok { playlist := name, enabled_extensions := reconciled.1,
                 enabled_title := reconciled.2.1, enabled_encoding := reconciled.2.2.1,
                 image := reconciled.2.2.2, link := links, file := files }

/-- Whether a validation run aborted. -/
def isErrorB {α : Type} : Except String α → Bool
  | .error _ => true
  | .ok _ => false

/-- The single-playlist path of `main_cli` (mkpl.py lines 1099 to 1146)
after validation: build the configuration from the validated arguments
(the title and encoding are passed through as given, not the
`enabled_title` / `enabled_encoding` flags, which `main_cli` never
reads), assemble the playlist including joins, and, when it has entries,
write it (appending to the pre-existing content in append mode).  When no
entry was produced nothing is written and the file keeps its previous
content.  The result is the final content of the destination file. -/
def run_cli (env : Env) (cenv : CliEnv) (a : ArgsIn) (cfg0 : Config)
    (dirs : List Dir) (joins : List String) (max_tracks : Option Nat) :
    Except String String :=
  match get_args_model cenv a with
  | .error e => .error e
  | .ok out =>
    let cfg : Config :=
      { cfg0 with
        extension := out.enabled_extensions,
        title := a.title, encoding := a.encoding, image := out.image,
        infos := a.add_info, links := out.link, other_files := out.file,
        min_size := a.min_size, max_size := a.max_size,
        min_length := (a.length : ℚ), max_length := (a.max_length : ℚ) }
    let pl := assemble env cfg dirs joins
    let existing := (cenv.readFile out.playlist).getD ""
    if pl.files.isEmpty then .ok existing
    else if a.append then .ok (existing ++ write_playlist_text pl max_tracks)
    else .ok (write_playlist_text pl max_tracks)

/-- A closed test environment: no patterns or filters match, no file has
readable metadata or bytes, shuffling is the identity permutation. -/
def testEnv : Env :=
  { findPattern := fun _ _ => false, checkFilter := fun _ _ => false,
    mediaLength := fun _ => none, fileBytes := fun _ => [],
    extinfOf := fun s => "0," ++ s, resolve := id, confirm := fun _ => true,
    urlQuote := id, statCtime := fun _ => none, statSize := fun _ => none,
    trackOf := fun _ => 0, yearOf := fun _ => "0000",
    readFile := fun _ => none, shuffleFn := id,
    shuffle_perm := fun l => List.Perm.refl l }

/-- Pre-existing destination file for the append scenario: it already
carries the header and a title marker. -/
def cenvC2 : CliEnv :=
  { isdir := fun _ => false, fsExists := fun _ => true,
    readFile := fun f => if f = "pl.m3u" then some "#EXTM3U\n#PLAYLIST:Old\n" else none }

/-- Append-mode invocation carrying a new title. -/
def aC2 : ArgsIn := { playlist := "pl", append := true, title := some "New" }

/-- A directory with one multimedia candidate. -/
def dirC2 : Dir := { path := "mdir", root := ".", candidates := [⟨"mdir/a.mp3", 100⟩] }

/-- Environment in which joined playlist file `J` holds one entry. -/
def envJ : Env := { testEnv with readFile := fun f => if f = "J" then some "J1\n" else none }

/-- Configuration supplying one remote link and one extra file. -/
def cfgC3 : Config := { links := ["http://L"], other_files := ["F"] }

/-- Name ordering with the descending flag also set. -/
def cfgC5 : Config := { sortby_name := true, descending := true }

/-- A directory whose glob yields the files out of name order. -/
def dirC5 : Dir := { path := "d", root := ".", candidates := [⟨"b.mp3", 10⟩, ⟨"a.mp3", 10⟩] }

/-- A benign CLI filesystem: nothing is a directory, everything exists. -/
def cenvOk : CliEnv :=
  { isdir := fun _ => false, fsExists := fun _ => true, readFile := fun _ => none }

/-- Configuration with only a minimum size bound. -/
def cfgMin : Config := { min_size := 5 }

/-- Environment in which two distinct paths carry identical bytes. -/
def envU : Env :=
  { testEnv with
    fileBytes := fun p => if p = "dir/x.mp3" ∨ p = "dir/c.mp3" then [1, 2] else [0] }

/-- Uniqueness filtering enabled, everything else off. -/
def cfgU : Config := { unique := true }

/-- One already collected entry, stored relative to the scanned root. -/
def accU : List PlaylistEntry := [{ file := "x.mp3" }]

/-- Configuration with a global image, one link and one extra file. -/
def cfgC10 : Config :=
  { image := some "c.png", links := ["http://a"], other_files := ["f.mp3"] }

/-- A playlist with extensions disabled whose entry carries an image. -/
def plW : Playlist := { files := [{ file := "a.mp3", image := some "c.png" }], ext := false }

/-- A well-formed extended playlist used for the round-trip instance. -/
def plRT : Playlist :=
  { files := [{ file := "a.mp3" }, { file := "b.mp3", image := some "c.png" }],
    ext := true, name := some "my list" }

/-- An optional string field that carries no newline character (trivially
true when absent). -/
def optNoNL : Option String → Bool
  | some s => decide ('\n' ∉ s.data)
  | none => true

/-- A string with no trailing Python whitespace (so `rstrip` leaves it
unchanged after removing one newline). -/
def lastNotSpace (s : String) : Bool :=
  match s.data.getLast? with
  | some c => !pyIsSpace c
  | none => true

/-- A configuration whose early filter stages are inert: no inclusion or
exclusion pattern, no excluded directories, no tag filters, no
interactive prompt, relative paths. -/
def plainScan (cfg : Config) : Prop :=
  cfg.pattern = none ∧ cfg.exclude_pattern = none ∧ cfg.exclude_dirs = [] ∧
  cfg.filters = [] ∧ cfg.interactive = false ∧ cfg.absolute = false

/-! Helper lemmas about the string model. -/

theorem str_append_empty (s : String) : s ++ "" = s := by
  have hdata : (s ++ "").data = s.data := by
    rw [String.data_append, show ("" : String).data = [] from rfl, List.append_nil]
  calc s ++ "" = String.mk ((s ++ "").data) := rfl
    _ = String.mk s.data := by rw [hdata]
    _ = s := rfl

theorem strEndsWith_append (s t : String) : strEndsWith (s ++ t) t = true := by
  simp only [strEndsWith, decide_eq_true_eq, String.data_append]
  exact ⟨s.data, rfl⟩

theorem readlinesAux_line (b : List Char) (hb : '\n' ∉ b) (acc rest : List Char) :
    readlinesAux (b ++ '\n' :: rest) acc
      = String.mk (acc.reverse ++ b ++ ['\n']) :: readlinesAux rest [] := by
  induction b generalizing acc with
  | nil => simp [readlinesAux]
  | cons c cs ih =>
    have hc : ¬(c = '\n') := fun h => hb (by simp [h])
    have hcs : '\n' ∉ cs := fun h => hb (List.mem_cons_of_mem _ h)
    simp only [List.cons_append, readlinesAux, if_neg hc, List.append_eq]
    rw [ih hcs (c :: acc)]
    simp

theorem readlines_strJoin (chunks : List String)
    (h : ∀ c ∈ chunks, ∃ b, c.data = b ++ ['\n'] ∧ '\n' ∉ b) :
    readlines (strJoin chunks) = chunks := by
  induction chunks with
  | nil => rfl
  | cons c cs ih =>
    obtain ⟨b, hb, hnb⟩ := h c (List.mem_cons_self c cs)
    have hdata : (strJoin (c :: cs)).data = b ++ '\n' :: (strJoin cs).data := by
      show (c ++ strJoin cs).data = _
      rw [String.data_append, hb]
      simp
    rw [readlines, hdata, readlinesAux_line b hnb [] _]
    have hmk : String.mk (List.reverse [] ++ b ++ ['\n']) = c := by
      rw [show List.reverse ([] : List Char) ++ b ++ ['\n'] = b ++ ['\n'] from by simp, ← hb]
    rw [hmk]
    rw [show readlinesAux (strJoin cs).data [] = readlines (strJoin cs) from rfl]
    rw [ih (fun x hx => h x (List.mem_cons_of_mem _ hx))]

theorem infix_strJoin {line : String} {chunks : List String} (h : line ∈ chunks) :
    line.data <:+: (strJoin chunks).data := by
  induction chunks with
  | nil => cases h
  | cons c cs ih =>
    rcases List.mem_cons.mp h with h | h
    · subst h
      exact ⟨[], (strJoin cs).data, by show [] ++ line.data ++ _ = (line ++ strJoin cs).data; simp [String.data_append]⟩
    · obtain ⟨s, t, hst⟩ := ih h
      refine ⟨c.data ++ s, t, ?_⟩
      show c.data ++ s ++ line.data ++ t = (c ++ strJoin cs).data
      rw [String.data_append, ← hst]
      simp

theorem pyStartsWith_hash (s : String) :
    pyStartsWith s "#" = true ↔ s.data.head? = some '#' := by
  have h1 : ("#" : String).data = ['#'] := by decide
  simp only [pyStartsWith, decide_eq_true_eq, h1]
  constructor
  · rintro ⟨t, ht⟩
    rw [← ht]; rfl
  · intro hh
    cases hs : s.data with
    | nil => rw [hs] at hh; cases hh
    | cons a l =>
      rw [hs] at hh
      simp only [List.head?_cons, Option.some.injEq] at hh
      refine ⟨l, ?_⟩
      rw [← hh]
      rfl

theorem head_hash_append (p x : String) (hp : p.data.head? = some '#') :
    (p ++ x).data.head? = some '#' := by
  rw [String.data_append]
  cases hs : p.data with
  | nil => rw [hs] at hp; cases hp
  | cons a l =>
    rw [hs] at hp
    simp only [List.head?_cons, Option.some.injEq] at hp
    rw [hp]; rfl

theorem pyRstrip_line (s : String)
    (h : ∀ c, s.data.getLast? = some c → pyIsSpace c = false) :
    pyRstrip (s ++ "\n") = s := by
  unfold pyRstrip
  rw [String.data_append, show ("\n" : String).data = ['\n'] from by decide]
  rw [List.reverse_append]
  simp only [List.reverse_cons, List.reverse_nil, List.nil_append, List.singleton_append]
  rw [List.dropWhile_cons]
  rw [show pyIsSpace '\n' = true from by decide]
  simp only [if_true]
  cases hrev : s.data.reverse with
  | nil =>
    have hnil : s.data = [] := by
      have := congrArg List.reverse hrev
      simpa using this
    simp only [List.dropWhile_nil, List.reverse_nil]
    conv_rhs => rw [show s = String.mk s.data from rfl, hnil]
  | cons c cs =>
    have hc : pyIsSpace c = false := by
      apply h c
      rw [← List.head?_reverse, hrev]; rfl
    rw [List.dropWhile_cons, hc]
    simp only [Bool.false_eq_true, if_false]
    rw [← hrev, List.reverse_reverse]

theorem filter_hash_lines (ls : List String)
    (h : ∀ x ∈ ls, x.data.head? = some '#') :
    ls.filter (fun line => !(pyStartsWith line "#")) = [] := by
  rw [List.filter_eq_nil_iff]
  intro a ha
  have hpa := (pyStartsWith_hash a).mpr (h a ha)
  simp [hpa]

theorem filter_entry_lines (e : PlaylistEntry) (h : e.file.data.head? ≠ some '#') :
    (entry_lines e).filter (fun line => !(pyStartsWith line "#")) = [e.file ++ "\n"] := by
  have hfile : pyStartsWith (e.file ++ "\n") "#" = false := by
    rw [Bool.eq_false_iff]
    intro hc
    rw [pyStartsWith_hash, String.data_append] at hc
    cases hs : e.file.data with
    | nil =>
      rw [hs] at hc
      simp only [List.nil_append] at hc
      exact absurd hc (by decide)
    | cons a l =>
      rw [hs] at hc
      simp only [List.cons_append, List.head?_cons] at hc
      exact h (by rw [hs, List.head?_cons, hc])
  rw [entry_lines, List.filter_append, List.filter_append]
  have h1 : ∀ x ∈ (match e.image with
      | some i => if i = "" then [] else ["#EXTIMG:" ++ i ++ "\n"]
      | none => ([] : List String)), x.data.head? = some '#' := by
    intro x hx
    cases himg : e.image with
    | none => simp only [himg] at hx; cases hx
    | some i =>
      simp only [himg] at hx
      by_cases hi : i = ""
      · rw [if_pos hi] at hx; cases hx
      · rw [if_neg hi] at hx
        rw [List.mem_singleton.mp hx]
        exact head_hash_append _ _ (head_hash_append _ _ (by decide))
  have h2 : ∀ x ∈ (match e.extinf with
      | some i => if i = "" then [] else ["#EXTINF:" ++ i ++ "\n"]
      | none => ([] : List String)), x.data.head? = some '#' := by
    intro x hx
    cases hinf : e.extinf with
    | none => simp only [hinf] at hx; cases hx
    | some i =>
      simp only [hinf] at hx
      by_cases hi : i = ""
      · rw [if_pos hi] at hx; cases hx
      · rw [if_neg hi] at hx
        rw [List.mem_singleton.mp hx]
        exact head_hash_append _ _ (head_hash_append _ _ (by decide))
  rw [filter_hash_lines _ h1, filter_hash_lines _ h2]
  simp [List.filter, hfile]

theorem filter_header_lines (pl : Playlist) :
    (header_lines pl).filter (fun line => !(pyStartsWith line "#")) = [] := by
  apply filter_hash_lines
  intro x hx
  rw [header_lines] at hx
  split at hx
  case isFalse => cases hx
  case isTrue =>
    rw [List.append_assoc, List.mem_append] at hx
    rcases hx with hx | hx
    · rw [List.mem_singleton.mp hx]; decide
    · rw [List.mem_append] at hx
      rcases hx with hx | hx
      · cases hn : pl.name with
        | none => simp only [hn] at hx; cases hx
        | some n =>
          simp only [hn] at hx
          by_cases h0 : n = ""
          · rw [if_pos h0] at hx; cases hx
          · rw [if_neg h0] at hx
            rw [List.mem_singleton.mp hx]
            exact head_hash_append _ _ (head_hash_append _ _ (by decide))
      · cases hn : pl.encoding with
        | none => simp only [hn] at hx; cases hx
        | some n =>
          simp only [hn] at hx
          by_cases h0 : n = ""
          · rw [if_pos h0] at hx; cases hx
          · rw [if_neg h0] at hx
            rw [List.mem_singleton.mp hx]
            exact head_hash_append _ _ (head_hash_append _ _ (by decide))

theorem flat_filter_map (l : List PlaylistEntry)
    (h : ∀ e ∈ l, e.file.data.head? ≠ some '#' ∧
        (∀ c, e.file.data.getLast? = some c → pyIsSpace c = false)) :
    ((l.flatMap entry_lines).filter (fun line => !(pyStartsWith line "#"))).map
        (fun line => pyRstrip line)
      = l.map (fun e => e.file) := by
  induction l with
  | nil => rfl
  | cons e es ih =>
    rw [List.flatMap_cons, List.filter_append, List.map_append,
      filter_entry_lines e (h e (List.mem_cons_self e es)).1,
      ih (fun x hx => h x (List.mem_cons_of_mem _ hx))]
    rw [List.map_cons, List.map_nil,
      pyRstrip_line e.file (h e (List.mem_cons_self e es)).2]
    rfl

theorem chunk_of_line (p x : String) (hp : '\n' ∉ p.data) (hx : '\n' ∉ x.data) :
    ∃ b, (p ++ x ++ "\n").data = b ++ ['\n'] ∧ '\n' ∉ b := by
  refine ⟨(p ++ x).data, ?_, ?_⟩
  · rw [String.data_append (p ++ x) "\n",
      show ("\n" : String).data = ['\n'] from by decide]
  · rw [String.data_append]
    intro hmem
    rcases List.mem_append.mp hmem with hm | hm
    exacts [hp hm, hx hm]

theorem chunk_of_line1 (x : String) (hx : '\n' ∉ x.data) :
    ∃ b, (x ++ "\n").data = b ++ ['\n'] ∧ '\n' ∉ b :=
  ⟨x.data,
    by rw [String.data_append, show ("\n" : String).data = ['\n'] from by decide],
    hx⟩

theorem write_lines_chunks (pl : Playlist)
    (hname : ∀ n, pl.name = some n → '\n' ∉ (capwords n).data)
    (henc : ∀ s, pl.encoding = some s → '\n' ∉ s.data)
    (hfiles : ∀ e ∈ pl.files, '\n' ∉ e.file.data ∧
        (∀ i, e.image = some i → '\n' ∉ i.data) ∧
        (∀ x, e.extinf = some x → '\n' ∉ x.data)) :
    ∀ c ∈ write_playlist_lines pl none, ∃ b, c.data = b ++ ['\n'] ∧ '\n' ∉ b := by
  intro c hc
  rw [write_playlist_lines, List.mem_append] at hc
  rcases hc with hc | hc
  · rw [header_lines] at hc
    split at hc
    case isFalse => cases hc
    case isTrue =>
      rw [List.append_assoc, List.mem_append] at hc
      rcases hc with hc | hc
      · rw [List.mem_singleton.mp hc]
        exact ⟨("#EXTM3U" : String).data, by decide, by decide⟩
      · rw [List.mem_append] at hc
        rcases hc with hc | hc
        · cases hn : pl.name with
          | none => simp only [hn] at hc; cases hc
          | some n =>
            simp only [hn] at hc
            by_cases h0 : n = ""
            · rw [if_pos h0] at hc; cases hc
            · rw [if_neg h0] at hc
              rw [List.mem_singleton.mp hc]
              exact chunk_of_line _ _ (by decide) (hname n hn)
        · cases hn : pl.encoding with
          | none => simp only [hn] at hc; cases hc
          | some n =>
            simp only [hn] at hc
            by_cases h0 : n = ""
            · rw [if_pos h0] at hc; cases hc
            · rw [if_neg h0] at hc
              rw [List.mem_singleton.mp hc]
              exact chunk_of_line _ _ (by decide) (henc n hn)
  · rcases List.mem_flatMap.mp hc with ⟨e, he, hce⟩
    obtain ⟨hf, hi, hx⟩ := hfiles e he
    rw [entry_lines, List.append_assoc, List.mem_append] at hce
    rcases hce with hce | hce
    · cases hImg : e.image with
      | none => simp only [hImg] at hce; cases hce
      | some i =>
        simp only [hImg] at hce
        by_cases h0 : i = ""
        · rw [if_pos h0] at hce; cases hce
        · rw [if_neg h0] at hce
          rw [List.mem_singleton.mp hce]
          exact chunk_of_line _ _ (by decide) (hi i hImg)
    · rw [List.mem_append] at hce
      rcases hce with hce | hce
      · cases hInf : e.extinf with
        | none => simp only [hInf] at hce; cases hce
        | some x =>
          simp only [hInf] at hce
          by_cases h0 : x = ""
          · rw [if_pos h0] at hce; cases hce
          · rw [if_neg h0] at hce
            rw [List.mem_singleton.mp hce]
            exact chunk_of_line _ _ (by decide) (hx x hInf)
      · rw [List.mem_singleton.mp hce]
        exact chunk_of_line1 _ hf

theorem pyInsert_perm {α : Type} (le : α → α → Bool) (x : α) (l : List α) :
    List.Perm (pyInsert le x l) (x :: l) := by
  induction l with
  | nil => rfl
  | cons y ys ih =>
    rw [pyInsert]
    split
    · rfl
    · exact (ih.cons y).trans (List.Perm.swap x y ys)

theorem pySort_perm {α : Type} (le : α → α → Bool) (l : List α) :
    List.Perm (pySort le l) l := by
  induction l with
  | nil => rfl
  | cons x xs ih => exact (pyInsert_perm le x (pySort le xs)).trans (ih.cons x)

theorem mem_applySort (env : Env) (cfg : Config) (files : List PlaylistEntry)
    {x : PlaylistEntry} (hx : x ∈ files) : x ∈ applySort env cfg files := by
  unfold applySort
  repeat' split
  all_goals
    first
      | exact hx
      | exact ((pySort_perm _ _).mem_iff).mpr hx
      | exact ((env.shuffle_perm _).mem_iff).mpr hx

theorem join_foldl (fs : String → Option String) (others : List String)
    (init : List PlaylistEntry) :
    others.foldl (fun acc file => acc ++ join_parse (fs file)) init
      = init ++ joinEntries fs others := by
  induction others generalizing init with
  | nil => simp [joinEntries]
  | cons o os ih =>
    rw [joinEntries, List.foldl_cons, List.foldl_cons, ih (init ++ join_parse (fs o))]
    rw [show os.foldl (fun acc file => acc ++ join_parse (fs file)) ([] ++ join_parse (fs o))
          = ([] ++ join_parse (fs o)) ++ joinEntries fs os from ih ([] ++ join_parse (fs o))]
    simp [List.append_assoc]

theorem mem_joinEntries {fs : String → Option String} {others : List String}
    {e : PlaylistEntry} (he : e ∈ joinEntries fs others) :
    e.image = none ∧ e.extinf = none := by
  induction others generalizing e with
  | nil => cases he
  | cons o os ih =>
    rw [joinEntries, List.foldl_cons, join_foldl] at he
    rcases List.mem_append.mp he with h | h
    · rw [List.nil_append] at h
      rw [join_parse.eq_def] at h
      cases hfo : fs o with
      | none => simp only [hfo] at h; cases h
      | some text =>
        simp only [hfo] at h
        rcases List.mem_map.mp h with ⟨line, _, hline⟩
        rw [← hline]
        exact ⟨rfl, rfl⟩
    · exact ih h

theorem file_in_playlist_spec (env : Env) (pl : Playlist) (file : String) (r : Option String) :
    file_in_playlist env pl file r = true ↔
      ∃ e ∈ pl.files, pyStartsWith e.file "#" = false ∧
        env.fileBytes
            (unix_to_dos (match r with | some rt => path_join rt e.file | none => e.file) true)
          = env.fileBytes file := by
  rw [file_in_playlist, List.any_eq_true]
  apply exists_congr
  intro e
  apply and_congr_right
  intro _
  by_cases h : pyStartsWith e.file "#"
  · simp [h]
  · simp [h, cmp_files]

theorem step_reject (env : Env) (root : String) (acc : List PlaylistEntry)
    (cfg : Config) (c : Candidate) (hps : plainScan cfg)
    (hg : (cfg.min_size ≠ 0 ∧ c.size ≤ cfg.min_size) ∨
       (cfg.max_size ≠ 0 ∧ cfg.max_size ≤ c.size) ∨
       (cfg.min_length ≠ 0 ∧ get_length env c.path ≤ cfg.min_length) ∨
       (cfg.max_length ≠ 0 ∧ cfg.max_length ≤ get_length env c.path)) :
    candidateStep env cfg root acc c = acc := by
  obtain ⟨hp, hxp, hxd, hf, hint, habs⟩ := hps
  unfold candidateStep
  simp only [hp, hxp, hxd, hf, hint, habs]
  simp
  intro _ h1 h2 h3
  rcases hg with ⟨ha, hb⟩ | ⟨ha, hb⟩ | ⟨ha, hb⟩ | ⟨ha, hb⟩
  · exact absurd (h1 ha) (by omega)
  · exact absurd (h2 ha) (by omega)
  · exact absurd (h3 ha) (not_lt.mpr hb)
  · exact ⟨ha, hb⟩

theorem step_accept (env : Env) (root : String) (acc : List PlaylistEntry)
    (cfg : Config) (c : Candidate) (hps : plainScan cfg) (hu : cfg.unique = false)
    (h1 : ¬(cfg.min_size ≠ 0 ∧ c.size ≤ cfg.min_size))
    (h2 : ¬(cfg.max_size ≠ 0 ∧ cfg.max_size ≤ c.size))
    (h3 : ¬(cfg.min_length ≠ 0 ∧ get_length env c.path ≤ cfg.min_length))
    (h4 : ¬(cfg.max_length ≠ 0 ∧ cfg.max_length ≤ get_length env c.path)) :
    ∃ e, candidateStep env cfg root acc c = acc ++ [e] := by
  obtain ⟨hp, hxp, hxd, hf, hint, habs⟩ := hps
  unfold candidateStep
  simp only [hp, hxp, hxd, hf, hint, habs, hu, Option.any_none, Bool.false_eq_true, false_and,
    if_false]
  rw [if_neg h1, if_neg h2, if_neg h3, if_neg h4]
  exact ⟨_, rfl⟩

theorem isErrorB_if {b : Type} (c : Prop) [Decidable c] (msg : String) (e : Except String b)
    (he : isErrorB e = true) : isErrorB (if c then Except.error msg else e) = true := by
  split
  · rfl
  · exact he

theorem reconcile_image_cases (env : CliEnv) (a : ArgsIn) (name : String) :
    (reconcile_append env a name).2.2.2 = none ∨
    (reconcile_append env a name).2.2.2 = a.image := by
  rw [reconcile_append]
  by_cases happ : a.append
  · simp only [happ, if_true]
    split
    · exact Or.inl rfl
    · exact Or.inr rfl
  · simp only [happ, Bool.false_eq_true, if_false]
    exact Or.inr trivial

theorem reconcile_image_truthy (env : CliEnv) (a : ArgsIn) (name : String)
    (ht : pyTruthy a.image = true) :
    (reconcile_append env a name).2.2.2 = a.image := by
  rw [reconcile_append]
  by_cases happ : a.append
  · simp only [happ, if_true]
    rw [if_neg]
    rintro ⟨-, hee, -⟩
    simp [ht] at hee
  · simp only [happ, Bool.false_eq_true, if_false]

/-! The claims. -/

/-- C1: strict boundary policy of the size and duration filters in the
collection loop, for a candidate whose earlier filter stages are inert:
with a non-zero minimum size, a candidate whose size equals the minimum
is rejected and one a byte larger is accepted; with a non-zero maximum
size, a candidate whose size equals the maximum is rejected; the same
strict policy holds for the minimum and maximum duration using
`get_length`, which yields the 0.1 default when the duration is
unreadable; a bound left at zero causes no rejection. -/
theorem claim_C1_strict_boundaries (env : Env) (root : String) (acc : List PlaylistEntry) :
    (∀ cfg c, plainScan cfg → cfg.unique = false → cfg.min_size ≠ 0 → cfg.max_size = 0 →
        cfg.min_length = 0 → cfg.max_length = 0 →
        (c.size = cfg.min_size → candidateStep env cfg root acc c = acc) ∧
        (c.size = cfg.min_size + 1 → ∃ e, candidateStep env cfg root acc c = acc ++ [e])) ∧
    (∀ cfg c, plainScan cfg → cfg.max_size ≠ 0 → c.size = cfg.max_size →
        candidateStep env cfg root acc c = acc) ∧
    (∀ cfg c, plainScan cfg → cfg.unique = false → cfg.min_size = 0 → cfg.max_size = 0 →
        cfg.max_length = 0 → cfg.min_length ≠ 0 →
        (get_length env c.path = cfg.min_length → candidateStep env cfg root acc c = acc) ∧
        (cfg.min_length < get_length env c.path →
            ∃ e, candidateStep env cfg root acc c = acc ++ [e])) ∧
    (∀ cfg c, plainScan cfg → cfg.unique = false → cfg.min_size = 0 → cfg.max_size = 0 →
        cfg.min_length = 0 → cfg.max_length ≠ 0 →
        (get_length env c.path = cfg.max_length → candidateStep env cfg root acc c = acc) ∧
        (get_length env c.path < cfg.max_length →
            ∃ e, candidateStep env cfg root acc c = acc ++ [e])) ∧
    (∀ p, env.mediaLength p = none → get_length env p = 1 / 10) ∧
    (∀ cfg c, plainScan cfg → cfg.unique = false → cfg.min_size = 0 → cfg.max_size = 0 →
        cfg.min_length = 0 → cfg.max_length = 0 →
        ∃ e, candidateStep env cfg root acc c = acc ++ [e]) := by
  refine ⟨?_, ?_, ?_, ?_, ?_, ?_⟩
  · intro cfg c hps hu hmin hmax hminl hmaxl
    constructor
    · intro hsz
      exact step_reject env root acc cfg c hps (Or.inl ⟨hmin, hsz.le⟩)
    · intro hsz
      apply step_accept env root acc cfg c hps hu
      · rintro ⟨-, hle⟩; omega
      · rintro ⟨hne, -⟩; exact hne hmax
      · rintro ⟨hne, -⟩; exact hne hminl
      · rintro ⟨hne, -⟩; exact hne hmaxl
  · intro cfg c hps hmax hsz
    exact step_reject env root acc cfg c hps (Or.inr (Or.inl ⟨hmax, hsz.ge⟩))
  · intro cfg c hps hu hmin hmax hmaxl hminl
    constructor
    · intro hlen
      exact step_reject env root acc cfg c hps (Or.inr (Or.inr (Or.inl ⟨hminl, hlen.le⟩)))
    · intro hlt
      apply step_accept env root acc cfg c hps hu
      · rintro ⟨hne, -⟩; exact hne hmin
      · rintro ⟨hne, -⟩; exact hne hmax
      · rintro ⟨-, hle⟩; exact absurd hle (not_le.mpr hlt)
      · rintro ⟨hne, -⟩; exact hne hmaxl
  · intro cfg c hps hu hmin hmax hminl hmaxl
    constructor
    · intro hlen
      exact step_reject env root acc cfg c hps (Or.inr (Or.inr (Or.inr ⟨hmaxl, hlen.ge⟩)))
    · intro hlt
      apply step_accept env root acc cfg c hps hu
      · rintro ⟨hne, -⟩; exact hne hmin
      · rintro ⟨hne, -⟩; exact hne hmax
      · rintro ⟨hne, -⟩; exact hne hminl
      · rintro ⟨-, hle⟩; exact absurd hle (not_le.mpr hlt)
  · intro p hp
    rw [get_length, hp]
  · intro cfg c hps hu hmin hmax hminl hmaxl
    apply step_accept env root acc cfg c hps hu
    · rintro ⟨hne, -⟩; exact hne hmin
    · rintro ⟨hne, -⟩; exact hne hmax
    · rintro ⟨hne, -⟩; exact hne hminl
    · rintro ⟨hne, -⟩; exact hne hmaxl

/-- C1 (witness): with minimum size 5 configured, a 5-byte candidate is
rejected and a 6-byte candidate is accepted. -/
theorem claim_C1_witness :
    candidateStep testEnv cfgMin "." [] ⟨"a.mp3", 5⟩ = [] ∧
    (∃ e, candidateStep testEnv cfgMin "." [] ⟨"a.mp3", 6⟩ = [] ++ [e]) :=
  ⟨((claim_C1_strict_boundaries testEnv "." []).1 cfgMin ⟨"a.mp3", 5⟩
      ⟨rfl, rfl, rfl, rfl, rfl, rfl⟩ rfl (by decide) rfl rfl rfl).1 rfl,
   ((claim_C1_strict_boundaries testEnv "." []).1 cfgMin ⟨"a.mp3", 6⟩
      ⟨rfl, rfl, rfl, rfl, rfl, rfl⟩ rfl (by decide) rfl rfl rfl).2 rfl⟩

/-- C2 (code defect demonstration): running the embedded append-mode
pipeline against a pre-existing file that already contains the
`#EXTM3U` and `#PLAYLIST:Old` lines, with a new title, produces a file
containing TWO `#EXTM3U` lines: the marker scan of `get_args` only turns
the extension flags on, and `write_playlist` then re-emits the header at
the end of the file, so the claimed no-duplication reconciliation does
not hold. -/
theorem claim_C2_append_duplicates_header :
    (match run_cli testEnv cenvC2 aC2 {} [dirC2] [] none with
      | .ok t => ((readlines t).filter (fun l => l = "#EXTM3U\n")).length
      | .error _ => 0) = 2 := by decide

/-- C3 (counterexample): with no directories, one remote link
`http://L`, one extra file `F`, and one joined playlist `J` holding the
single entry `J1`, the final entry order is `[http://L, F, J1]`, not the
claimed `[J1, http://L, F]`: joined entries are appended last, after the
links and the extra files. -/
theorem claim_C3_counterexample :
    ¬((assemble envJ cfgC3 [] ["J"]).files.map (fun e => e.file)
        = ["J1", "http://L", "F"]) := by decide

/-- C3 (amended): the extra entries are merged in this order: remote
links first, then explicit extra files (both inside `make_playlist`,
before the ordering is applied, so both participate in sorting), and the
entries joined from other playlist files are appended last, after
sorting; joined entries are bare, with no image and no info
descriptor. -/
theorem claim_C3_amended (env : Env) (cfg : Config) (dirs : List Dir)
    (joins : List String) :
    (assemble env cfg dirs joins).files
      = applySort env cfg
          (collect_dirs env cfg dirs
            ++ cfg.links.map (link_entry cfg)
            ++ cfg.other_files.map (extra_entry env cfg))
        ++ joinEntries env.readFile joins
    ∧ ∀ e ∈ joinEntries env.readFile joins, e.image = none ∧ e.extinf = none := by
  constructor
  · rw [assemble]
    by_cases hj : joins.isEmpty
    · rw [if_pos hj]
      rw [List.isEmpty_iff.mp hj]
      rw [show joinEntries env.readFile [] = [] from rfl, List.append_nil]
      rfl
    · rw [if_neg hj, join_playlist]
      show joins.foldl _ (make_playlist env cfg dirs).files = _
      rw [join_foldl]
      rfl
  · intro e he
    exact mem_joinEntries he

/-- C4 (counterexample): a playlist with the extension flag off whose
entry carries a cover image still gets an `#EXTIMG` line written: the
per-entry marker lines are not dropped when `extensionEnabled` is
false. -/
theorem claim_C4_counterexample :
    strContains
      (write_playlist_text ⟨[⟨"a.mp3", some "c.png", none⟩], false, none, none⟩ none)
      "#EXTIMG:c.png\n" = true := by decide

/-- C4 (amended): when the extension flag is off the `#EXTM3U`, title and
encoding header lines are omitted (the output is exactly the per-entry
lines), but the `#EXTIMG` / `#EXTINF` lines of entries carrying a cover
image or info descriptor are still written, not dropped. -/
theorem claim_C4_amended (pl : Playlist) (mt : Option Nat) (hext : pl.ext = false) :
    write_playlist_lines pl mt = (listTake mt pl.files).flatMap entry_lines ∧
    (∀ e ∈ listTake mt pl.files, ∀ i, e.image = some i → i ≠ "" →
        ("#EXTIMG:" ++ i ++ "\n").data <:+: (write_playlist_text pl mt).data) := by
  have hh : header_lines pl = [] := by rw [header_lines, hext]; rfl
  constructor
  · rw [write_playlist_lines, hh, List.nil_append]
  · intro e he i hi h0
    apply infix_strJoin
    rw [write_playlist_lines]
    refine List.mem_append.mpr (Or.inr (List.mem_flatMap.mpr ⟨e, he, ?_⟩))
    rw [entry_lines]
    simp only [hi, if_neg h0]
    exact List.mem_append.mpr (Or.inl (List.mem_append.mpr (Or.inl (List.mem_singleton.mpr rfl))))

/-- C4 (witness): the amended statement instantiated at a concrete
playlist with extensions disabled and an image-carrying entry. -/
theorem claim_C4_witness :
    write_playlist_lines plW none = (listTake none plW.files).flatMap entry_lines ∧
    (∀ e ∈ listTake none plW.files, ∀ i, e.image = some i → i ≠ "" →
        ("#EXTIMG:" ++ i ++ "\n").data <:+: (write_playlist_text plW none).data) :=
  claim_C4_amended plW none rfl

/-- C5 (code defect demonstration): with the name ordering and the
descending flag both set, inputs discovered in the order
`[b.mp3, a.mp3]` come out in ASCENDING order `[a.mp3, b.mp3]`: the
source calls `filelist.files.sort()` for the name ordering without
passing `reverse=descending`, so the descending flag is silently ignored
for this ordering (every other ordering passes it). -/
theorem claim_C5_descending_ignored_for_name :
    (make_playlist testEnv cfgC5 [dirC5]).files.map (fun e => e.file)
      = ["a.mp3", "b.mp3"] := by decide

/-- C6 (counterexample): a playlist whose single entry location starts
with the comment marker is written and then lost on re-joining, because
`join_playlist` skips every line beginning with the marker: the
round-trip does not hold unconditionally. -/
theorem claim_C6_counterexample :
    (join_playlist
        (fun _ => some (write_playlist_text ⟨[⟨"#local.mp3", none, none⟩], false, none, none⟩ none))
        ⟨[], false, none, none⟩ ["p.m3u"]).files.map (fun e => e.file)
      ≠ ["#local.mp3"] := by decide

/-- C7 (counterexample): a configuration whose minimum size bound (500)
exceeds its maximum size bound (100) passes the `get_args` validation
without an abort: the source never compares the two size bounds, so
conflicting size bounds do not abort. -/
theorem claim_C7_counterexample :
    isErrorB (get_args_model cenvOk { playlist := "p", min_size := 500, max_size := 100 })
      = false := by decide

/-- C7 (amended): the `get_args` validation aborts when the destination
playlist path is a directory, when the minimum and maximum duration
bounds conflict (equal while the minimum is set, or minimum at or above
a set maximum), and when a requested (truthy) cover image does not
exist — in append mode as well, since a truthy image already forces the
extension flag on, making the image-drop branch unreachable; and it does
NOT abort otherwise — in particular the minimum and maximum size bounds
are never compared, so arbitrary (also conflicting) size bounds pass
validation. -/
theorem claim_C7_validation (env : CliEnv) (a : ArgsIn) :
    (env.isdir (fix_playlist_name a.playlist a.encoding) = true →
        isErrorB (get_args_model env a) = true) ∧
    ((a.length ≠ 0 ∧ a.length = a.max_length) ∨ (a.max_length ≠ 0 ∧ a.max_length ≤ a.length) →
        isErrorB (get_args_model env a) = true) ∧
    (∀ i, a.image = some i → i ≠ "" → env.fsExists i = false →
        isErrorB (get_args_model env a) = true) ∧
    (env.isdir (fix_playlist_name a.playlist a.encoding) = false →
        (∀ i, a.image = some i → i ≠ "" → env.fsExists i = true) →
        ¬(a.length ≠ 0 ∧ a.length = a.max_length) →
        ¬(a.max_length ≠ 0 ∧ a.max_length ≤ a.length) →
        isErrorB (get_args_model env a) = false) := by
  refine ⟨?_, ?_, ?_, ?_⟩
  · intro hd
    unfold get_args_model
    simp [hd, isErrorB]
  · intro hlen
    unfold get_args_model
    split
    · exact isErrorB_if _ _ _ (isErrorB_if _ _ _ rfl)
    · split
      · exact isErrorB_if _ _ _ (isErrorB_if _ _ _ rfl)
      · rename_i h1 h2
        exfalso
        rcases hlen with h | h
        · exact h1 h
        · exact h2 h
  · intro i himg hne hex
    have htr : pyTruthy a.image = true := by
      rw [himg]
      simpa [pyTruthy] using hne
    have himgeq :=
      reconcile_image_truthy env a (fix_playlist_name a.playlist a.encoding) htr
    unfold get_args_model
    split
    · exact isErrorB_if _ _ _ (isErrorB_if _ _ _ rfl)
    · simp [himgeq, himg, hne, hex, isErrorB]
      split
      · rfl
      · rename_i heqq
        exfalso
        split at heqq <;> exact Except.noConfusion heqq
  · intro hd himg hl1 hl2
    unfold get_args_model
    simp only [hd, Bool.false_eq_true, if_false]
    have himgc : ((reconcile_append env a (fix_playlist_name a.playlist a.encoding)).2.2.2.any
        fun i => decide (i ≠ "") && !(env.fsExists i)) = false := by
      rcases reconcile_image_cases env a (fix_playlist_name a.playlist a.encoding) with ho | ho
      · rw [ho]; rfl
      · rw [ho]
        cases hoi : a.image with
        | none => rfl
        | some i =>
          by_cases h0 : i = ""
          · simp [h0]
          · simp [h0, himg i hoi h0]
    simp only [himgc, Bool.false_eq_true, if_false]
    rw [if_neg hl1, if_neg hl2]
    rfl

/-- C7 (witness): a benign configuration with conflicting size bounds
(7 above 3) and no duration conflict passes validation. -/
theorem claim_C7_witness :
    isErrorB (get_args_model cenvOk { playlist := "w", min_size := 7, max_size := 3 }) = false :=
  (claim_C7_validation cenvOk { playlist := "w", min_size := 7, max_size := 3 }).2.2.2
    rfl (fun i hi _ => Option.noConfusion hi) (by decide) (by decide)

/-- C8: with the uniqueness flag enabled (and the other filter stages
inert), a candidate is rejected by the collection step exactly when some
already-accepted entry that is not a comment line has the same byte
content, where the entry path is first re-rooted against the scanned
directory parent and has DOS separators substituted back to Unix before
the content comparison (`filecmp.cmp` modelled as byte equality). -/
theorem claim_C8_unique_content (env : Env) (cfg : Config) (root : String)
    (acc : List PlaylistEntry) (c : Candidate)
    (hps : plainScan cfg) (hu : cfg.unique = true)
    (hsz : cfg.min_size = 0 ∧ cfg.max_size = 0 ∧ cfg.min_length = 0 ∧ cfg.max_length = 0) :
    (candidateStep env cfg root acc c = acc ↔
      ∃ e ∈ acc, pyStartsWith e.file "#" = false ∧
        env.fileBytes (unix_to_dos (path_join root e.file) true) = env.fileBytes c.path) := by
  obtain ⟨hp, hxp, hxd, hf, hint, habs⟩ := hps
  obtain ⟨h1, h2, h3, h4⟩ := hsz
  have hspec := file_in_playlist_spec env ⟨acc, cfg.extension, cfg.title, cfg.encoding⟩
    c.path (some root)
  constructor
  · intro hstep
    by_cases hfc : file_in_playlist env ⟨acc, cfg.extension, cfg.title, cfg.encoding⟩
        c.path (some root) = true
    · exact hspec.mp hfc
    · exfalso
      unfold candidateStep at hstep
      simp only [hp, hxp, hxd, hf, hint, habs, hu, h1, h2, h3, h4] at hstep
      simp [hfc] at hstep
  · intro hex
    have hfc := hspec.mpr hex
    unfold candidateStep
    simp only [hp, hxp, hxd, hf, hint, habs, hu, h1, h2, h3, h4]
    simp [hfc]

/-- C8 (witness): the entry `x.mp3` collected from root parent `dir` and
the candidate `dir/c.mp3` have different path strings but identical
bytes in `envU`, so the candidate is rejected. -/
theorem claim_C8_witness :
    candidateStep envU cfgU "dir" accU ⟨"dir/c.mp3", 7⟩ = accU :=
  (claim_C8_unique_content envU cfgU "dir" accU ⟨"dir/c.mp3", 7⟩
      ⟨rfl, rfl, rfl, rfl, rfl, rfl⟩ rfl ⟨rfl, rfl, rfl, rfl⟩).mpr
    ⟨{ file := "x.mp3" }, by decide, by decide, by decide⟩

/-- C9 (counterexample): with UNICODE encoding and the playlist name
`x.m3u`, the name is left unchanged and does not end in `.m3u8`: the
source checks for the `.m3u` suffix first, so a `.m3u` name is never
upgraded to `.m3u8` even under UNICODE. -/
theorem claim_C9_counterexample :
    fix_playlist_name "x.m3u" (some "UNICODE") = "x.m3u" ∧
    strEndsWith (fix_playlist_name "x.m3u" (some "UNICODE")) ".m3u8" = false := by decide

/-- C9 (amended): the given name is always a prefix of the output (a
suffix is appended, never replaces the name); without UNICODE the output
always ends in `.m3u`; under UNICODE a name already ending in `.m3u` is
kept unchanged, and otherwise the output ends in `.m3u8`. -/
theorem claim_C9_amended (p : String) (enc : Option String) :
    (∃ t, p ++ t = fix_playlist_name p enc) ∧
    (enc ≠ some "UNICODE" → strEndsWith (fix_playlist_name p enc) ".m3u" = true) ∧
    (enc = some "UNICODE" → strEndsWith p ".m3u" = true → fix_playlist_name p enc = p) ∧
    (enc = some "UNICODE" → strEndsWith p ".m3u" = false →
        strEndsWith (fix_playlist_name p enc) ".m3u8" = true) := by
  refine ⟨?_, ?_, ?_, ?_⟩
  · rw [fix_playlist_name]
    by_cases h : strEndsWith p ".m3u" = true
    · rw [if_pos h]; exact ⟨"", str_append_empty p⟩
    · rw [if_neg h]
      by_cases hu : enc = some "UNICODE"
      · rw [if_pos hu]
        by_cases h8 : strEndsWith p ".m3u8" = true
        · rw [if_pos h8]; exact ⟨"", str_append_empty p⟩
        · rw [if_neg h8]; exact ⟨".m3u8", rfl⟩
      · rw [if_neg hu]; exact ⟨".m3u", rfl⟩
  · intro henc
    rw [fix_playlist_name]
    by_cases h : strEndsWith p ".m3u" = true
    · rw [if_pos h]; exact h
    · rw [if_neg h, if_neg henc]
      exact strEndsWith_append p ".m3u"
  · intro henc hm3u
    rw [fix_playlist_name, if_pos hm3u]
  · intro henc hm3u
    rw [fix_playlist_name, if_neg (by rw [hm3u]; exact Bool.false_ne_true), if_pos henc]
    by_cases h8 : strEndsWith p ".m3u8" = true
    · rw [if_pos h8]; exact h8
    · rw [if_neg h8]; exact strEndsWith_append p ".m3u8"

/-- C6 (amended): the write/join round-trip holds for playlists whose
entry locations do not begin with the comment marker, contain no newline
and carry no trailing whitespace, whose per-entry image and info fields
and capitalized title and encoding contain no newline, and when no
`max_tracks` truncation is applied: writing and joining back yields
exactly the original ordered location list. -/
theorem claim_C6_amended (pl : Playlist)
    (hname : optNoNL (pl.name.map capwords) = true)
    (henc : optNoNL pl.encoding = true)
    (hfiles : ∀ e ∈ pl.files,
      e.file.data.head? ≠ some '#' ∧ '\n' ∉ e.file.data ∧
      lastNotSpace e.file = true ∧ optNoNL e.image = true ∧ optNoNL e.extinf = true) :
    (join_playlist (fun _ => some (write_playlist_text pl none)) ⟨[], false, none, none⟩
        ["src.m3u"]).files.map (fun e => e.file)
      = pl.files.map (fun e => e.file) := by
  have hname2 : ∀ n, pl.name = some n → '\n' ∉ (capwords n).data := by
    intro n hn
    rw [hn] at hname
    simp only [Option.map_some, optNoNL] at hname
    exact of_decide_eq_true hname
  have henc2 : ∀ s, pl.encoding = some s → '\n' ∉ s.data := by
    intro s hs
    rw [hs] at henc
    simp only [optNoNL] at henc
    exact of_decide_eq_true henc
  have hfiles2 : ∀ e ∈ pl.files, '\n' ∉ e.file.data ∧
      (∀ i, e.image = some i → '\n' ∉ i.data) ∧
      (∀ x, e.extinf = some x → '\n' ∉ x.data) := by
    intro e he
    obtain ⟨-, h2, -, h4, h5⟩ := hfiles e he
    refine ⟨h2, ?_, ?_⟩
    · intro i hi
      rw [hi] at h4
      simp only [optNoNL] at h4
      exact of_decide_eq_true h4
    · intro x hx
      rw [hx] at h5
      simp only [optNoNL] at h5
      exact of_decide_eq_true h5
  have hchunks := write_lines_chunks pl hname2 henc2 hfiles2
  have hread : readlines (write_playlist_text pl none) = write_playlist_lines pl none :=
    readlines_strJoin _ hchunks
  have hlastfun : ∀ e ∈ pl.files, e.file.data.head? ≠ some '#' ∧
      (∀ c, e.file.data.getLast? = some c → pyIsSpace c = false) := by
    intro e he
    obtain ⟨h1, -, h3, -, -⟩ := hfiles e he
    refine ⟨h1, fun c hc => ?_⟩
    simp only [lastNotSpace, hc] at h3
    simpa using h3
  have hjoin : (join_playlist (fun _ => some (write_playlist_text pl none))
      ⟨[], false, none, none⟩ ["src.m3u"]).files
      = ((readlines (write_playlist_text pl none)).filter
          (fun line => !(pyStartsWith line "#"))).map (fun line => { file := pyRstrip line }) := rfl
  rw [hjoin, hread, write_playlist_lines, List.filter_append, filter_header_lines,
    List.nil_append, show listTake none pl.files = pl.files from rfl]
  simpa [List.map_map, Function.comp] using flat_filter_map pl.files hlastfun

/-- C6 (witness): the amended round-trip applied to a concrete
well-formed extended playlist with a title and an image-carrying
entry. -/
theorem claim_C6_witness :
    (join_playlist (fun _ => some (write_playlist_text plRT none)) ⟨[], false, none, none⟩
        ["src.m3u"]).files.map (fun e => e.file)
      = plRT.files.map (fun e => e.file) :=
  claim_C6_amended plRT (by decide) (by decide) (by decide)

/-- C9 (witness): the amended statement applied at a name without the
suffix under UNICODE: the `.m3u8` suffix is appended. -/
theorem claim_C9_witness :
    strEndsWith (fix_playlist_name "x" (some "UNICODE")) ".m3u8" = true :=
  (claim_C9_amended "x" (some "UNICODE")).2.2.2 rfl (by decide)

/-- C10: with a global cover image configured, every remote-link entry
appended by `make_playlist` carries that image and no info descriptor,
and every explicit extra-file entry carries that image and an info
descriptor exactly when the infos flag is set (the entries survive into
the final playlist under every ordering mode, shuffle included); and the
serializer emits an own `#EXTIMG` line for every written entry carrying
a (truthy) image. -/
theorem claim_C10_extras_carry_image (env : Env) (cfg : Config) (dirs : List Dir)
    (img : String) (himg : cfg.image = some img) :
    (∀ l ∈ cfg.links,
        ({ file := l, image := some img, extinf := none } : PlaylistEntry)
          ∈ (make_playlist env cfg dirs).files) ∧
    (∀ f ∈ cfg.other_files,
        ({ file := f, image := some img,
           extinf := if cfg.infos then some (env.extinfOf f) else none } : PlaylistEntry)
          ∈ (make_playlist env cfg dirs).files) ∧
    (∀ (pl : Playlist) (mt : Option Nat), ∀ e ∈ listTake mt pl.files, ∀ i,
        e.image = some i → i ≠ "" →
        ("#EXTIMG:" ++ i ++ "\n").data <:+: (write_playlist_text pl mt).data) := by
  refine ⟨?_, ?_, ?_⟩
  · intro l hl
    rw [make_playlist]
    apply mem_applySort
    rw [← himg]
    exact List.mem_append.mpr (Or.inl (List.mem_append.mpr
      (Or.inr (List.mem_map_of_mem (link_entry cfg) hl))))
  · intro f hf
    rw [make_playlist]
    apply mem_applySort
    rw [← himg]
    exact List.mem_append.mpr (Or.inr (List.mem_map_of_mem (extra_entry env cfg) hf))
  · intro pl mt e he i hi h0
    apply infix_strJoin
    rw [write_playlist_lines]
    refine List.mem_append.mpr (Or.inr (List.mem_flatMap.mpr ⟨e, he, ?_⟩))
    rw [entry_lines]
    simp only [hi, if_neg h0]
    exact List.mem_append.mpr (Or.inl (List.mem_append.mpr (Or.inl (List.mem_singleton.mpr rfl))))

/-- C10 (witness): with global image `c.png`, the link entry and the
extra-file entry in the final playlist carry the image, and a written
image-carrying entry yields its `#EXTIMG` line. -/
theorem claim_C10_witness :
    ({ file := "http://a", image := some "c.png", extinf := none } : PlaylistEntry)
      ∈ (make_playlist testEnv cfgC10 []).files ∧
    ("#EXTIMG:c.png" ++ "\n").data <:+: (write_playlist_text plW none).data :=
  ⟨(claim_C10_extras_carry_image testEnv cfgC10 [] "c.png" rfl).1 "http://a" (by decide),
   by
    have h := (claim_C10_extras_carry_image testEnv cfgC10 [] "c.png" rfl).2.2 plW none
      { file := "a.mp3", image := some "c.png" } (by decide) "c.png" rfl (by decide)
    simpa using h⟩

end Mkpl
